import Mathlib

/-!
Verification of the Japanese-Word-Dumper batch pipeline (src/api_functions.py).

Strings are modelled as lists of characters (`Str`).  The two Python
functions, `get_definitions` and `process_file`, are embedded as pure Lean
functions.  The network is a parameter `net : Str → NetOutcome`: a call of
`requests.get` either raises a connection error or yields a response whose
JSON body is modelled structurally (a missing key is `none`; a JSON `null`
value for a key is not distinguished from a missing key).  Python exceptions
(KeyError on a missing key, IndexError on `[0]` of an empty list, a raised
connection error) are modelled with `Except`: `Except.error` is an uncaught
exception.  `process_file` returns a `ProcOutcome` recording the chunks
written to the output file, the not-found list, the values passed to the
progress callback (as rationals: Python's float division is modelled by
exact division in `Rat`), and the words passed to the label callback.
-/

abbrev Str := List Char

/-- Python `s.replace(a, b)` for single characters `a`, `b`. -/
def pyReplace (a b : Char) (s : Str) : Str :=
  s.map (fun c => if c = a then b else c)

/-- Python `s.split(sep)` for a single-character separator: keeps empty
pieces, and the empty string splits into one empty piece. -/
def pySplitChar (sep : Char) : Str → List Str
  | [] => [[]]
  | c :: s =>
    if c = sep then [] :: pySplitChar sep s
    else
      match pySplitChar sep s with
      | [] => [[c]]
      | h :: t => (c :: h) :: t

/-- The ASCII whitespace stripped by Python `str.strip()` that can occur in
a text line (space, tab, newline, carriage return). -/
def pyWs (c : Char) : Bool :=
  c = ' ' || c = '\t' || c = '\n' || c = '\r'

/-- Python `s.strip()`: remove trailing whitespace (via reversal), then
leading whitespace. -/
def pyStrip (s : Str) : Str :=
  ((s.reverse.dropWhile pyWs).reverse).dropWhile pyWs

/-- `line.replace('、', ',').replace(' ', ',').split(',')` (line 60 before
the per-word strip and filter). -/
def splitWords (line : Str) : List Str :=
  pySplitChar ',' (pyReplace ' ' ',' (pyReplace '、' ',' line))

/-- Line 60: the tokens of one input line: split on commas, Japanese
commas and spaces, strip each piece, drop empty pieces. -/
def tokens (line : Str) : List Str :=
  ((splitWords line).map pyStrip).filter (fun w => !w.isEmpty)

/-- Line 53 (the pre-scan):
`len(line.replace('、', ',').strip().replace(' ', ',').split(','))`.
Note the strip is applied to the whole line and empty pieces are counted. -/
def prescanCount (line : Str) : Nat :=
  (pySplitChar ',' (pyReplace ' ' ',' (pyStrip (pyReplace '、' ',' line)))).length

/-- Line 53: `total_words`, the sum of the pre-scan counts of all lines. -/
def totalWords (lines : List Str) : Nat :=
  (lines.map prescanCount).sum

/-- All tokens of the file in processing order (the main pass). -/
def allTokens : List Str → List Str
  | [] => []
  | l :: ls => tokens l ++ allTokens ls

/-- One element of the JSON `japanese` list: keys `word` and `reading`. -/
structure JapaneseField where
  word : Option Str
  reading : Option Str
deriving DecidableEq

/-- One element of the JSON `senses` list: key `english_definitions`. -/
structure Sense where
  english_definitions : Option (List Str)
deriving DecidableEq

/-- One entry of the JSON `data` list: keys `japanese` and `senses`. -/
structure Entry where
  japanese : Option (List JapaneseField)
  senses : Option (List Sense)
deriving DecidableEq

/-- An HTTP response: status code plus the JSON body, which has at most a
`data` key (modelled by `dataField`). -/
structure ApiResponse where
  status_code : Nat
  dataField : Option (List Entry)
deriving DecidableEq

/-- Outcome of `requests.get`: a raised connection error, or a response. -/
inductive NetOutcome where
  | connError : NetOutcome
  | response : ApiResponse → NetOutcome
deriving DecidableEq

/-- Python falsiness of an optional string (`None` or `""`). -/
def pyFalsy : Option Str → Bool
  | none => true
  | some s => s.isEmpty

/-- Lines 18-35 of `get_definitions`, from the response on.  `Except.error`
is an uncaught Python exception (KeyError / IndexError).  The final check
models `if not all([entry, reading, japanese_word, flattened_definitions])`:
`entry` is a dict that is non-empty (hence truthy) whenever this line is
reached, so only the other three are tested. -/
def handleResponse (r : ApiResponse) :
    Except Unit (Option (Str × Str × List Str)) :=
  if r.status_code ≠ 200 then .ok none
  else
    match r.dataField with
    | none => .error ()
    | some [] => .ok none
    | some (entry :: _) =>
      match entry.japanese with
      | none => .error ()
      | some [] => .error ()
      | some (j0 :: _) =>
        let reading : Option Str := j0.reading
        let japanese_word : Option Str :=
          match j0.word with
          | none => reading
          | some w => some w
        match entry.senses with
        | none => .error ()
        | some senses =>
          if (senses.take 3).any (fun s => s.english_definitions.isNone) then
            .error ()
          else
            let flattened_definitions : List Str :=
              (((senses.take 3).map
                  (fun s => s.english_definitions.getD [])).flatten).take 3
            if pyFalsy reading || pyFalsy japanese_word
                || flattened_definitions.isEmpty then
              .ok none
            else
              .ok (some (japanese_word.getD [], reading.getD [],
                flattened_definitions))

/-- `get_definitions(word)` (lines 3-35): one network call, then parse. -/
def get_definitions (net : Str → NetOutcome) (word : Str) :
    Except Unit (Option (Str × Str × List Str)) :=
  match net word with
  | .connError => .error ()
  | .response r => handleResponse r

/-- Lines 66-71: the output record of a found word. -/
def fmtRecord (japanese_word reading : Str) (definitions : List Str) : Str :=
  if japanese_word = reading then
    reading ++ (";".data) ++ List.intercalate (", ".data) definitions ++ (";\n".data)
  else
    japanese_word ++ ("[".data) ++ reading ++ ("];".data)
      ++ List.intercalate (", ".data) definitions ++ (";\n".data)

/-- Observable state of one run of `process_file`: the chunks written to
the output file, the in-memory not-found list, the values handed to the
progress callback, the words handed to the checking-label callback and the
`words_checked` counter. -/
structure RunState where
  written : List Str
  notFound : List Str
  progress : List Rat
  labels : List Str
  checked : Nat
deriving DecidableEq

def initState : RunState := ⟨[], [], [], [], 0⟩

/-- Lines 62-77: the body of the inner loop for one word.  An exception in
`get_definitions` propagates (there is no try/except in the source). -/
def stepWord (net : Str → NetOutcome) (total_words : Nat) (st : RunState)
    (word : Str) : Except RunState RunState :=
  let st1 : RunState := { st with labels := st.labels ++ [word] }
  match get_definitions net word with
  | .error _ => .error st1
  | .ok result =>
    let st2 : RunState :=
      match result with
      | some (japanese_word, reading, definitions) =>
        { st1 with written := st1.written ++ [fmtRecord japanese_word reading definitions] }
      | none => { st1 with notFound := st1.notFound ++ [word] }
    .ok { st2 with
          checked := st2.checked + 1,
          progress := st2.progress
            ++ [((st2.checked + 1 : Nat) : Rat) / ((total_words : Nat) : Rat)] }

/-- The inner `for word in words` loop; stops at the first exception. -/
def tokFold (net : Str → NetOutcome) (total_words : Nat) :
    RunState → List Str → Except RunState RunState
  | st, [] => .ok st
  | st, w :: ws =>
    match stepWord net total_words st w with
    | .error e => .error e
    | .ok st' => tokFold net total_words st' ws

/-- The outer `for line in infile` loop. -/
def lineFold (net : Str → NetOutcome) (total_words : Nat) :
    RunState → List Str → Except RunState RunState
  | st, [] => .ok st
  | st, l :: ls =>
    match tokFold net total_words st (tokens l) with
    | .error e => .error e
    | .ok st' => lineFold net total_words st' ls

/-- Result of a run of `process_file`: the input file could not be opened
(so the output file was never created), or an exception escaped mid-run
(the output file holds what was written so far), or the run finished. -/
inductive ProcOutcome where
  | openFail : ProcOutcome
  | crashed : RunState → ProcOutcome
  | done : RunState → ProcOutcome
deriving DecidableEq

/-- Lines 37-84.  The input file is `some lines` when it can be opened
(each line is given without its trailing newline, which every relevant
operation of the source strips anyway), `none` when opening raises. -/
def process_file (input : Option (List Str)) (net : Str → NetOutcome) :
    ProcOutcome :=
  match input with
  | none => .openFail
  | some lines =>
    let total_words := totalWords lines
    match lineFold net total_words initState lines with
    | .error st => .crashed st
    | .ok st =>
      if st.notFound.isEmpty then .done st
      else
        .done { st with
                written := st.written ++ ["\nDefinition Not Found:\n".data]
                  ++ st.notFound.map (fun w => w ++ ("\n".data)) }

/-- Contents of the output file after a run: `none` when it was never
created, otherwise the chunks written. -/
def outputFileAfter : ProcOutcome → Option (List Str)
  | .openFail => none
  | .crashed st => some st.written
  | .done st => some st.written

/-- Declarative description of the records of the found words of a token
list, in encounter order (used to state what the main section holds). -/
def foundRecords (net : Str → NetOutcome) : List Str → List Str
  | [] => []
  | w :: ws =>
    match get_definitions net w with
    | .ok (some (jw, rd, ds)) => fmtRecord jw rd ds :: foundRecords net ws
    | _ => foundRecords net ws

/-- Declarative description of the not-found words of a token list, in
encounter order: the tokens whose lookup returned no result. -/
def notFoundOf (net : Str → NetOutcome) : List Str → List Str
  | [] => []
  | w :: ws =>
    match get_definitions net w with
    | .ok none => w :: notFoundOf net ws
    | _ => notFoundOf net ws

/-- The reading extracted from the first entry:
`entry['japanese'][0].get('reading', None)` (line 27). -/
def entryReading (e : Entry) : Option Str :=
  match e.japanese with
  | some (j0 :: _) => j0.reading
  | _ => none

/-- The surface form extracted from the first entry:
`entry['japanese'][0].get('word', reading)` (line 28). -/
def entrySurface (e : Entry) : Option Str :=
  match e.japanese with
  | some (j0 :: _) =>
    (match j0.word with
     | none => j0.reading
     | some w => some w)
  | _ => none

/-- The definition list extracted from the first entry: the
`english_definitions` of the first three senses, flattened, first three
kept (lines 29-30). -/
def entryDefs (e : Entry) : List Str :=
  match e.senses with
  | some ss => (((ss.take 3).map (fun s => s.english_definitions.getD [])).flatten).take 3
  | none => []

/-- The shape of a body on which lines 21-30 raise no exception: the
`data` key exists and, when the data list is non-empty, the first entry
has a non-empty `japanese` list, a `senses` key, and each of the first
three senses has an `english_definitions` key. -/
def totalShape (r : ApiResponse) : Bool :=
  match r.dataField with
  | none => false
  | some [] => true
  | some (e :: _) =>
    (match e.japanese with
     | some (_ :: _) => true
     | _ => false) &&
    (match e.senses with
     | none => false
     | some ss => (ss.take 3).all (fun s => !s.english_definitions.isNone))

/-- The shape condition exactly as claim C10 words it: the `data` key
exists and, when the data list is non-empty, the first entry has a
non-empty `japanese` list and every entry of its `senses` list has an
`english_definitions` key.  (It differs from `totalShape` on senses past
the third, which the code never touches.) -/
def claimShapeC10 (r : ApiResponse) : Bool :=
  match r.dataField with
  | none => false
  | some [] => true
  | some (e :: _) =>
    (match e.japanese with
     | some (_ :: _) => true
     | _ => false) &&
    (match e.senses with
     | none => false
     | some ss => ss.all (fun s => !s.english_definitions.isNone))

/-- A network where every lookup answers with status 404 (lookup fails,
no exception). -/
def net404 : Str → NetOutcome := fun _ => .response ⟨404, none⟩

/-- A network where every request raises a connection error. -/
def netConn : Str → NetOutcome := fun _ => .connError

/-- A successful response for a word with surface form 犬, reading いぬ
and the single definition dog. -/
def rInu : ApiResponse :=
  ⟨200, some [⟨some [⟨some "犬".data, some "いぬ".data⟩],
               some [⟨some ["dog".data]⟩]⟩]⟩

/-- A network answering every lookup with `rInu`. -/
def netInu : Str → NetOutcome := fun _ => .response rInu

/-- A successful response with four senses whose fourth lacks the
`english_definitions` key; the code only reads the first three senses. -/
def rEx : ApiResponse :=
  ⟨200, some [⟨some [⟨some "犬".data, some "いぬ".data⟩],
               some [⟨some ["dog".data]⟩, ⟨some ["run".data]⟩,
                     ⟨some ["sun".data]⟩, ⟨none⟩]⟩]⟩

/-- A successful response whose first entry lacks the `senses` key. -/
def rBad : ApiResponse :=
  ⟨200, some [⟨some [⟨some "犬".data, some "いぬ".data⟩], none⟩]⟩

/-- `line.replace('、', ',')` already applied: the pieces produced by the
space-to-comma replacement followed by the comma split (shared by the
pre-scan and the main pass). -/
def rawPieces (s : Str) : List Str :=
  pySplitChar ',' (pyReplace ' ' ',' s)

/-- The number of pieces of `s` that strip to something non-empty, i.e.
the number of tokens the main pass extracts from a `、`-replaced line. -/
def ntCount (s : Str) : Nat :=
  (((rawPieces s).map pyStrip).filter (fun w => !w.isEmpty)).length

/-- Joins two piece lists of a split: the last piece of the first list is
glued to the first piece of the second (how a split distributes over an
append of the underlying strings). -/
def glue : List Str → List Str → List Str
  | [], ys => ys
  | [x], [] => [x]
  | [x], y :: ys => (x ++ y) :: ys
  | x :: xs, ys => x :: glue xs ys

/-- Decidable equality for lookup results (used to evaluate the model on
concrete inputs). -/
instance exceptDecEq {e a : Type} [DecidableEq e] [DecidableEq a] :
    DecidableEq (Except e a)
  | .error x, .error y =>
    if h : x = y then .isTrue (by rw [h])
    else .isFalse (by intro hc; cases hc; exact h rfl)
  | .error _, .ok _ => .isFalse (by intro hc; cases hc)
  | .ok _, .error _ => .isFalse (by intro hc; cases hc)
  | .ok x, .ok y =>
    if h : x = y then .isTrue (by rw [h])
    else .isFalse (by intro hc; cases hc; exact h rfl)

/-! ### Lemmas about the two tokenization passes -/

theorem pySplitChar_ne_nil (sep : Char) (s : Str) : pySplitChar sep s ≠ [] := by
  cases s with
  | nil => simp [pySplitChar]
  | cons c s =>
    simp only [pySplitChar]
    split
    · simp
    · split <;> simp

theorem rawPieces_ne_nil (s : Str) : rawPieces s ≠ [] :=
  pySplitChar_ne_nil _ _

theorem rawPieces_exists_cons (s : Str) : ∃ hd rest, rawPieces s = hd :: rest := by
  cases h : rawPieces s with
  | nil => exact absurd h (rawPieces_ne_nil s)
  | cons a b => exact ⟨a, b, rfl⟩

theorem rawPieces_nil : rawPieces [] = [[]] := rfl

theorem rawPieces_cons_sep {c : Char} (h : c = ',' ∨ c = ' ') (s : Str) :
    rawPieces (c :: s) = [] :: rawPieces s := by
  rcases h with h | h <;> subst h <;>
    simp [rawPieces, pyReplace, pySplitChar]

theorem rawPieces_cons_other {c : Char} (h1 : c ≠ ',') (h2 : c ≠ ' ') {s : Str}
    {hd : Str} {rest : List Str} (he : rawPieces s = hd :: rest) :
    rawPieces (c :: s) = (c :: hd) :: rest := by
  unfold rawPieces pyReplace at he ⊢
  simp only [List.map_cons]
  rw [if_neg h2]
  unfold pySplitChar
  rw [if_neg h1, he]

theorem dropWhile_append_all {p : Char → Bool} {a b : Str}
    (h : ∀ x ∈ a, p x = true) :
    List.dropWhile p (a ++ b) = List.dropWhile p b := by
  have he : (List.dropWhile p a).isEmpty = true := by
    rw [List.isEmpty_iff, List.dropWhile_eq_nil_iff]
    exact h
  rw [List.dropWhile_append, if_pos he]

theorem strip_cons_ws {c : Char} (hc : pyWs c = true) (s : Str) :
    pyStrip (c :: s) = pyStrip s := by
  unfold pyStrip
  rw [List.reverse_cons, List.dropWhile_append]
  by_cases h : (List.dropWhile pyWs s.reverse).isEmpty = true
  · rw [if_pos h]
    rw [List.isEmpty_iff] at h
    rw [h]
    simp [List.dropWhile, hc]
  · rw [if_neg h]
    rw [List.reverse_append]
    simp only [List.reverse_cons, List.reverse_nil, List.nil_append,
      List.singleton_append]
    rw [List.dropWhile_cons_of_pos hc]

theorem strip_append_ws {s w : Str} (h : ∀ x ∈ w, pyWs x = true) :
    pyStrip (s ++ w) = pyStrip s := by
  unfold pyStrip
  rw [List.reverse_append,
    dropWhile_append_all (fun x hx => h x (List.mem_reverse.mp hx))]

theorem strip_eq_nil_iff {s : Str} :
    pyStrip s = [] ↔ ∀ c ∈ s, pyWs c = true := by
  constructor
  · intro h c hc
    unfold pyStrip at h
    rw [List.dropWhile_eq_nil_iff] at h
    have hs : c ∈ s.reverse := List.mem_reverse.mpr hc
    rw [← List.takeWhile_append_dropWhile pyWs s.reverse] at hs
    rcases List.mem_append.mp hs with h1 | h2
    · exact List.mem_takeWhile_imp h1
    · exact h c (List.mem_reverse.mpr h2)
  · intro h
    unfold pyStrip
    have h1 : List.dropWhile pyWs s.reverse = [] := by
      rw [List.dropWhile_eq_nil_iff]
      exact fun x hx => h x (List.mem_reverse.mp hx)
    rw [h1]
    simp

theorem strip_isEmpty_eq (p : Str) :
    (!(pyStrip p).isEmpty) = p.any (fun c => !pyWs c) := by
  cases hb : p.any (fun c => !pyWs c) with
  | false =>
    rw [List.any_eq_false] at hb
    have h0 : pyStrip p = [] := strip_eq_nil_iff.mpr (by
      intro c hc
      have := hb c hc
      simpa using this)
    simp [h0]
  | true =>
    rw [List.any_eq_true] at hb
    obtain ⟨c, hc, hw⟩ := hb
    have h0 : pyStrip p ≠ [] := by
      intro hnil
      have := strip_eq_nil_iff.mp hnil c hc
      simp [this] at hw
    simp [List.isEmpty_iff, h0]

theorem ntCount_eq_countP (s : Str) :
    ntCount s = List.countP (fun p => p.any (fun c => !pyWs c)) (rawPieces s) := by
  unfold ntCount
  rw [List.filter_map, List.length_map, ← List.countP_eq_length_filter]
  apply List.countP_congr
  intro p _
  have := strip_isEmpty_eq p
  constructor
  · intro h
    rw [← this]
    exact h
  · intro h
    have h2 : (!(pyStrip p).isEmpty) = true := by rw [this]; exact h
    exact h2

theorem nt_cons_ws {c : Char} (hc : pyWs c = true) (s : Str) :
    ntCount (c :: s) = ntCount s := by
  by_cases hsp : c = ' '
  · subst hsp
    rw [ntCount_eq_countP, ntCount_eq_countP, rawPieces_cons_sep (Or.inr rfl)]
    simp [List.countP_cons]
  · have h1 : c ≠ ',' := by
      intro h
      subst h
      simp [pyWs] at hc
    obtain ⟨hd, rest, he⟩ := rawPieces_exists_cons s
    rw [ntCount_eq_countP, ntCount_eq_countP, rawPieces_cons_other h1 hsp he, he]
    simp [List.countP_cons, List.any_cons, hc]

theorem nt_dropWhile (s : Str) : ntCount s = ntCount (s.dropWhile pyWs) := by
  induction s with
  | nil => rfl
  | cons c s ih =>
    by_cases h : pyWs c = true
    · rw [nt_cons_ws h, ih, List.dropWhile_cons_of_pos h]
    · rw [List.dropWhile_cons_of_neg h]

theorem rawPieces_append (a b : Str) :
    rawPieces (a ++ b) = glue (rawPieces a) (rawPieces b) := by
  induction a with
  | nil =>
    obtain ⟨hd, rest, he⟩ := rawPieces_exists_cons b
    rw [List.nil_append, he, rawPieces_nil]
    simp [glue]
  | cons c a ih =>
    by_cases hsep : c = ',' ∨ c = ' '
    · rw [List.cons_append, rawPieces_cons_sep hsep, rawPieces_cons_sep hsep, ih]
      obtain ⟨hd, rest, he⟩ := rawPieces_exists_cons a
      rw [he]
      simp [glue]
    · push_neg at hsep
      obtain ⟨h1, h2⟩ := hsep
      obtain ⟨hd, rest, he⟩ := rawPieces_exists_cons a
      cases rest with
      | nil =>
        obtain ⟨hb, rb, heb⟩ := rawPieces_exists_cons b
        have hab : rawPieces (a ++ b) = (hd ++ hb) :: rb := by
          rw [ih, he, heb]
          simp [glue]
        rw [List.cons_append, rawPieces_cons_other h1 h2 hab,
          rawPieces_cons_other h1 h2 he, heb]
        simp [glue]
      | cons r0 rs =>
        have hab : rawPieces (a ++ b) = hd :: glue (r0 :: rs) (rawPieces b) := by
          rw [ih, he]
          simp [glue]
        rw [List.cons_append, rawPieces_cons_other h1 h2 hab,
          rawPieces_cons_other h1 h2 he]
        simp [glue]

theorem rawPieces_all_ws {w : Str} (h : ∀ x ∈ w, pyWs x = true) :
    ∀ p ∈ rawPieces w, ∀ c ∈ p, pyWs c = true := by
  induction w with
  | nil =>
    intro p hp c hc
    rw [rawPieces_nil] at hp
    simp at hp
    subst hp
    simp at hc
  | cons d w ih =>
    have hd := h d (by simp)
    have hrest : ∀ x ∈ w, pyWs x = true := fun x hx => h x (by simp [hx])
    by_cases hsep : d = ',' ∨ d = ' '
    · rw [rawPieces_cons_sep hsep]
      intro p hp c hc
      rcases List.mem_cons.mp hp with h1 | h2
      · subst h1
        simp at hc
      · exact ih hrest p h2 c hc
    · push_neg at hsep
      obtain ⟨hdp, rest, he⟩ := rawPieces_exists_cons w
      rw [rawPieces_cons_other hsep.1 hsep.2 he]
      intro p hp c hc
      rcases List.mem_cons.mp hp with h1 | h2
      · subst h1
        rcases List.mem_cons.mp hc with h3 | h4
        · subst h3
          exact hd
        · exact ih hrest hdp (by rw [he]; simp) c h4
      · exact ih hrest p (by rw [he]; simp [h2]) c hc

theorem countP_glue {q : Str → Bool} (hq : ∀ x y : Str, q (x ++ y) = (q x || q y)) :
    ∀ (as bs : List Str), as ≠ [] → bs ≠ [] → (∀ p ∈ bs, q p = false) →
      List.countP q (glue as bs) = List.countP q as := by
  intro as
  induction as with
  | nil =>
    intro bs h
    exact absurd rfl h
  | cons x xs ih =>
    intro bs hne hbne hb
    cases xs with
    | nil =>
      cases bs with
      | nil => exact absurd rfl hbne
      | cons y ys =>
        have hy : q y = false := hb y (by simp)
        have hys : List.countP q ys = 0 :=
          List.countP_eq_zero.mpr (fun a ha => by simp [hb a (by simp [ha])])
        simp [glue, List.countP_cons, hq x y, hy, hys]
    | cons x' xs' =>
      simp only [glue, List.countP_cons]
      rw [ih bs (by simp) hbne hb, List.countP_cons]

theorem nt_append_ws {s w : Str} (h : ∀ x ∈ w, pyWs x = true) :
    ntCount (s ++ w) = ntCount s := by
  rw [ntCount_eq_countP, ntCount_eq_countP, rawPieces_append]
  apply countP_glue
  · intro x y
    exact List.any_append
  · exact rawPieces_ne_nil s
  · exact rawPieces_ne_nil w
  · intro p hp
    rw [List.any_eq_false]
    intro c hc
    simp [rawPieces_all_ws h p hp c hc]

theorem nt_eq_nt_strip (s : Str) : ntCount s = ntCount (pyStrip s) := by
  have hdecomp : s = (List.dropWhile pyWs s.reverse).reverse
      ++ (List.takeWhile pyWs s.reverse).reverse := by
    conv_lhs => rw [← List.reverse_reverse s,
      ← List.takeWhile_append_dropWhile pyWs s.reverse]
    rw [List.reverse_append]
  have hws : ∀ x ∈ (List.takeWhile pyWs s.reverse).reverse, pyWs x = true :=
    fun x hx => List.mem_takeWhile_imp (List.mem_reverse.mp hx)
  calc ntCount s
      = ntCount ((List.dropWhile pyWs s.reverse).reverse
          ++ (List.takeWhile pyWs s.reverse).reverse) := by rw [← hdecomp]
    _ = ntCount ((List.dropWhile pyWs s.reverse).reverse) := nt_append_ws hws
    _ = ntCount (pyStrip s) := by rw [nt_dropWhile]; rfl

theorem tokens_length_le (line : Str) :
    (tokens line).length ≤ prescanCount line := by
  have h1 : (tokens line).length = ntCount (pyReplace '、' ',' line) := rfl
  have h2 : prescanCount line
      = (rawPieces (pyStrip (pyReplace '、' ',' line))).length := rfl
  rw [h1, h2, nt_eq_nt_strip, ntCount_eq_countP]
  exact List.countP_le_length _

theorem prescanCount_pos (line : Str) : 1 ≤ prescanCount line := by
  have hne := rawPieces_ne_nil (pyStrip (pyReplace '、' ',' line))
  have h2 : prescanCount line
      = (rawPieces (pyStrip (pyReplace '、' ',' line))).length := rfl
  rw [h2]
  exact List.length_pos.mpr hne

theorem allTokens_length_le (lines : List Str) :
    (allTokens lines).length ≤ totalWords lines := by
  induction lines with
  | nil => simp [allTokens, totalWords]
  | cons l ls ih =>
    have h3 : totalWords (l :: ls) = prescanCount l + totalWords ls := by
      simp [totalWords]
    have h4 : (allTokens (l :: ls)).length
        = (tokens l).length + (allTokens ls).length := by
      simp [allTokens]
    have := tokens_length_le l
    omega

theorem totalWords_zero {lines : List Str} (h : totalWords lines = 0) :
    lines = [] := by
  cases lines with
  | nil => rfl
  | cons l ls =>
    exfalso
    have h1 : totalWords (l :: ls) = prescanCount l + totalWords ls := by
      simp [totalWords]
    have := prescanCount_pos l
    omega

/-! ### Lemmas about the processing loop -/

theorem stepWord_eq (net : Str → NetOutcome) (T : Nat) (st : RunState) (w : Str) :
    stepWord net T st w =
      match get_definitions net w with
      | .error _ => .error { st with labels := st.labels ++ [w] }
      | .ok (some (jw, rd, ds)) =>
        .ok { written := st.written ++ [fmtRecord jw rd ds],
              notFound := st.notFound,
              progress := st.progress
                ++ [((st.checked + 1 : Nat) : Rat) / ((T : Nat) : Rat)],
              labels := st.labels ++ [w],
              checked := st.checked + 1 }
      | .ok none =>
        .ok { written := st.written,
              notFound := st.notFound ++ [w],
              progress := st.progress
                ++ [((st.checked + 1 : Nat) : Rat) / ((T : Nat) : Rat)],
              labels := st.labels ++ [w],
              checked := st.checked + 1 } := by
  cases hg : get_definitions net w with
  | error e => simp [stepWord, hg]
  | ok result =>
    cases result with
    | none => simp [stepWord, hg]
    | some t =>
      obtain ⟨jw, rd, ds⟩ := t
      simp [stepWord, hg]

theorem range1_append (s a b : Nat) :
    List.range' s a ++ List.range' (s + a) b = List.range' s (a + b) := by
  induction a generalizing s with
  | zero => simp
  | succ a ih =>
    rw [List.range'_succ, List.cons_append]
    have h1 : s + (a + 1) = (s + 1) + a := by omega
    rw [h1, ih]
    rw [← List.range'_succ]
    congr 1
    omega

theorem range1_concat (k : Nat) :
    List.range' 1 (k + 1) = List.range' 1 k ++ [k + 1] := by
  rw [List.range'_concat]
  congr 1
  simp [Nat.add_comm]

theorem stepWord_ok_inv {net : Str → NetOutcome} {T : Nat} {st : RunState}
    {w : Str} {stN : RunState} (h : stepWord net T st w = .ok stN) :
    stN.progress = st.progress
      ++ [((st.checked + 1 : Nat) : Rat) / ((T : Nat) : Rat)] ∧
    stN.checked = st.checked + 1 ∧
    stN.labels = st.labels ++ [w] := by
  rw [stepWord_eq] at h
  cases hg : get_definitions net w with
  | error e0 =>
    rw [hg] at h
    cases h
  | ok result =>
    rw [hg] at h
    cases result with
    | none =>
      cases h
      exact ⟨rfl, rfl, rfl⟩
    | some t =>
      obtain ⟨jw, rd, ds⟩ := t
      cases h
      exact ⟨rfl, rfl, rfl⟩

theorem stepWord_error_inv {net : Str → NetOutcome} {T : Nat} {st : RunState}
    {w : Str} {e : RunState} (h : stepWord net T st w = .error e) :
    e.progress = st.progress ∧ e.checked = st.checked ∧
    get_definitions net w = .error () := by
  rw [stepWord_eq] at h
  cases hg : get_definitions net w with
  | error e0 =>
    rw [hg] at h
    cases h
    cases e0
    exact ⟨rfl, rfl, rfl⟩
  | ok result =>
    rw [hg] at h
    cases result with
    | none => cases h
    | some t =>
      obtain ⟨jw, rd, ds⟩ := t
      cases h

theorem tokFold_progress {net : Str → NetOutcome} {T : Nat} :
    ∀ (ts : List Str) (st : RunState),
      st.progress = (List.range' 1 st.checked).map
        (fun n => ((n : Nat) : Rat) / ((T : Nat) : Rat)) →
      ((∀ st', tokFold net T st ts = .ok st' →
          st'.progress = (List.range' 1 st'.checked).map
            (fun n => ((n : Nat) : Rat) / ((T : Nat) : Rat)) ∧
          st.checked ≤ st'.checked ∧ st'.checked ≤ st.checked + ts.length) ∧
       (∀ e, tokFold net T st ts = .error e →
          e.progress = (List.range' 1 e.checked).map
            (fun n => ((n : Nat) : Rat) / ((T : Nat) : Rat)) ∧
          st.checked ≤ e.checked ∧ e.checked ≤ st.checked + ts.length)) := by
  intro ts
  induction ts with
  | nil =>
    intro st hP
    constructor
    · intro st' hok
      simp only [tokFold] at hok
      cases hok
      exact ⟨hP, le_refl _, by simp⟩
    · intro e he
      simp only [tokFold] at he
      cases he
  | cons w ws ih =>
    intro st hP
    constructor
    · intro st' hok
      simp only [tokFold] at hok
      cases hs : stepWord net T st w with
      | error e0 =>
        rw [hs] at hok
        cases hok
      | ok stN =>
        rw [hs] at hok
        obtain ⟨hprogN, hchkN, _⟩ := stepWord_ok_inv hs
        have hPN : stN.progress = (List.range' 1 stN.checked).map
            (fun n => ((n : Nat) : Rat) / ((T : Nat) : Rat)) := by
          rw [hprogN, hchkN, hP, range1_concat, List.map_append]
          simp
        obtain ⟨ha, hb, hc⟩ := (ih stN hPN).1 st' hok
        refine ⟨ha, by omega, ?_⟩
        simp only [List.length_cons]
        omega
    · intro e he
      simp only [tokFold] at he
      cases hs : stepWord net T st w with
      | error e0 =>
        rw [hs] at he
        cases he
        obtain ⟨hp, hc, _⟩ := stepWord_error_inv hs
        refine ⟨by rw [hp, hc]; exact hP, by omega, by omega⟩
      | ok stN =>
        rw [hs] at he
        obtain ⟨hprogN, hchkN, _⟩ := stepWord_ok_inv hs
        have hPN : stN.progress = (List.range' 1 stN.checked).map
            (fun n => ((n : Nat) : Rat) / ((T : Nat) : Rat)) := by
          rw [hprogN, hchkN, hP, range1_concat, List.map_append]
          simp
        obtain ⟨ha, hb, hc⟩ := (ih stN hPN).2 e he
        refine ⟨ha, by omega, ?_⟩
        simp only [List.length_cons]
        omega

theorem lineFold_progress {net : Str → NetOutcome} {T : Nat} :
    ∀ (lines : List Str) (st : RunState),
      st.progress = (List.range' 1 st.checked).map
        (fun n => ((n : Nat) : Rat) / ((T : Nat) : Rat)) →
      ((∀ st', lineFold net T st lines = .ok st' →
          st'.progress = (List.range' 1 st'.checked).map
            (fun n => ((n : Nat) : Rat) / ((T : Nat) : Rat)) ∧
          st.checked ≤ st'.checked ∧
          st'.checked ≤ st.checked + (allTokens lines).length) ∧
       (∀ e, lineFold net T st lines = .error e →
          e.progress = (List.range' 1 e.checked).map
            (fun n => ((n : Nat) : Rat) / ((T : Nat) : Rat)) ∧
          st.checked ≤ e.checked ∧
          e.checked ≤ st.checked + (allTokens lines).length)) := by
  intro lines
  induction lines with
  | nil =>
    intro st hP
    constructor
    · intro st' hok
      simp only [lineFold] at hok
      cases hok
      exact ⟨hP, le_refl _, by simp [allTokens]⟩
    · intro e he
      simp only [lineFold] at he
      cases he
  | cons l ls ih =>
    intro st hP
    have hlen : (allTokens (l :: ls)).length
        = (tokens l).length + (allTokens ls).length := by
      simp [allTokens]
    constructor
    · intro st' hok
      simp only [lineFold] at hok
      cases hs : tokFold net T st (tokens l) with
      | error e0 =>
        rw [hs] at hok
        cases hok
      | ok stN =>
        rw [hs] at hok
        obtain ⟨hPN, hb1, hb2⟩ := (tokFold_progress (tokens l) st hP).1 stN hs
        obtain ⟨ha, hb, hc⟩ := (ih stN hPN).1 st' hok
        exact ⟨ha, by omega, by omega⟩
    · intro e he
      simp only [lineFold] at he
      cases hs : tokFold net T st (tokens l) with
      | error e0 =>
        rw [hs] at he
        cases he
        obtain ⟨ha, hb, hc⟩ := (tokFold_progress (tokens l) st hP).2 e hs
        exact ⟨ha, by omega, by omega⟩
      | ok stN =>
        rw [hs] at he
        obtain ⟨hPN, hb1, hb2⟩ := (tokFold_progress (tokens l) st hP).1 stN hs
        obtain ⟨ha, hb, hc⟩ := (ih stN hPN).2 e he
        exact ⟨ha, by omega, by omega⟩

theorem foundRecords_append (net : Str → NetOutcome) (a b : List Str) :
    foundRecords net (a ++ b) = foundRecords net a ++ foundRecords net b := by
  induction a with
  | nil => simp [foundRecords]
  | cons w ws ih =>
    cases hg : get_definitions net w with
    | error e => simp [foundRecords, hg, ih]
    | ok result =>
      cases result with
      | none => simp [foundRecords, hg, ih]
      | some t =>
        obtain ⟨jw, rd, ds⟩ := t
        simp [foundRecords, hg, ih]

theorem notFoundOf_append (net : Str → NetOutcome) (a b : List Str) :
    notFoundOf net (a ++ b) = notFoundOf net a ++ notFoundOf net b := by
  induction a with
  | nil => simp [notFoundOf]
  | cons w ws ih =>
    cases hg : get_definitions net w with
    | error e => simp [notFoundOf, hg, ih]
    | ok result =>
      cases result with
      | none => simp [notFoundOf, hg, ih]
      | some t =>
        obtain ⟨jw, rd, ds⟩ := t
        simp [notFoundOf, hg, ih]

theorem tokFold_descr {net : Str → NetOutcome} {T : Nat} :
    ∀ (ts : List Str) (st : RunState),
      (∀ w ∈ ts, get_definitions net w ≠ .error ()) →
      tokFold net T st ts = .ok
        { written := st.written ++ foundRecords net ts,
          notFound := st.notFound ++ notFoundOf net ts,
          progress := st.progress ++ (List.range' (st.checked + 1) ts.length).map
            (fun n => ((n : Nat) : Rat) / ((T : Nat) : Rat)),
          labels := st.labels ++ ts,
          checked := st.checked + ts.length } := by
  intro ts
  induction ts with
  | nil =>
    intro st _
    simp [tokFold, foundRecords, notFoundOf]
  | cons w ws ih =>
    intro st hex
    cases hg : get_definitions net w with
    | error e0 =>
      exfalso
      apply hex w (by simp)
      cases e0
      exact hg
    | ok result =>
      have hstep := stepWord_eq net T st w
      rw [hg] at hstep
      cases result with
      | none =>
        simp only [tokFold, hstep]
        rw [ih _ (fun x hx => hex x (by simp [hx]))]
        simp [foundRecords, notFoundOf, hg, List.range'_succ, List.append_assoc]
        omega
      | some t =>
        obtain ⟨jw, rd, ds⟩ := t
        simp only [tokFold, hstep]
        rw [ih _ (fun x hx => hex x (by simp [hx]))]
        simp [foundRecords, notFoundOf, hg, List.range'_succ, List.append_assoc]
        omega

theorem lineFold_descr {net : Str → NetOutcome} {T : Nat} :
    ∀ (lines : List Str) (st : RunState),
      (∀ w ∈ allTokens lines, get_definitions net w ≠ .error ()) →
      lineFold net T st lines = .ok
        { written := st.written ++ foundRecords net (allTokens lines),
          notFound := st.notFound ++ notFoundOf net (allTokens lines),
          progress := st.progress
            ++ (List.range' (st.checked + 1) (allTokens lines).length).map
              (fun n => ((n : Nat) : Rat) / ((T : Nat) : Rat)),
          labels := st.labels ++ allTokens lines,
          checked := st.checked + (allTokens lines).length } := by
  intro lines
  induction lines with
  | nil =>
    intro st _
    simp [lineFold, allTokens, foundRecords, notFoundOf]
  | cons l ls ih =>
    intro st hex
    have hexl : ∀ w ∈ tokens l, get_definitions net w ≠ .error () := by
      intro w hw
      exact hex w (by simp [allTokens, hw])
    have hexls : ∀ w ∈ allTokens ls, get_definitions net w ≠ .error () := by
      intro w hw
      exact hex w (by simp [allTokens, hw])
    simp only [lineFold, tokFold_descr (tokens l) st hexl]
    rw [ih _ hexls]
    simp only [allTokens, Except.ok.injEq, RunState.mk.injEq]
    refine ⟨?_, ?_, ?_, ?_, ?_⟩
    · rw [foundRecords_append, List.append_assoc]
    · rw [notFoundOf_append, List.append_assoc]
    · rw [List.append_assoc, ← List.map_append]
      have harr : st.checked + (tokens l).length + 1
          = (st.checked + 1) + (tokens l).length := by omega
      rw [harr, range1_append]
      rw [List.length_append]
    · rw [List.append_assoc]
    · rw [List.length_append]
      omega

theorem tokFold_ok_no_err {net : Str → NetOutcome} {T : Nat} :
    ∀ (ts : List Str) (st st' : RunState),
      tokFold net T st ts = .ok st' →
      ∀ w ∈ ts, get_definitions net w ≠ .error () := by
  intro ts
  induction ts with
  | nil =>
    intro st st' h w hw
    simp at hw
  | cons v ws ih =>
    intro st st' h w hw
    simp only [tokFold] at h
    cases hs : stepWord net T st v with
    | error e0 =>
      rw [hs] at h
      cases h
    | ok stN =>
      rw [hs] at h
      rcases List.mem_cons.mp hw with rfl | hmem
      · intro hbad
        rw [stepWord_eq, hbad] at hs
        cases hs
      · exact ih stN st' h w hmem

theorem lineFold_ok_no_err {net : Str → NetOutcome} {T : Nat} :
    ∀ (lines : List Str) (st st' : RunState),
      lineFold net T st lines = .ok st' →
      ∀ w ∈ allTokens lines, get_definitions net w ≠ .error () := by
  intro lines
  induction lines with
  | nil =>
    intro st st' h w hw
    simp [allTokens] at hw
  | cons l ls ih =>
    intro st st' h w hw
    simp only [lineFold] at h
    cases hs : tokFold net T st (tokens l) with
    | error e0 =>
      rw [hs] at h
      cases h
    | ok stN =>
      rw [hs] at h
      simp only [allTokens] at hw
      rcases List.mem_append.mp hw with h1 | h2
      · exact tokFold_ok_no_err (tokens l) st stN hs w h1
      · exact ih stN st' h w h2

theorem process_done {lines : List Str} {net : Str → NetOutcome}
    {st : RunState} (h : process_file (some lines) net = .done st) :
    st.notFound = notFoundOf net (allTokens lines) ∧
    st.written = foundRecords net (allTokens lines) ++
      (if (notFoundOf net (allTokens lines)).isEmpty then []
       else ("\nDefinition Not Found:\n".data) ::
         (notFoundOf net (allTokens lines)).map (fun w => w ++ ("\n".data))) ∧
    st.labels = allTokens lines ∧
    st.checked = (allTokens lines).length ∧
    st.progress = (List.range' 1 (allTokens lines).length).map
      (fun n => ((n : Nat) : Rat) / ((totalWords lines : Nat) : Rat)) := by
  simp only [process_file] at h
  cases hlf : lineFold net (totalWords lines) initState lines with
  | error e0 =>
    rw [hlf] at h
    cases h
  | ok st1 =>
    rw [hlf] at h
    have hex := lineFold_ok_no_err lines initState st1 hlf
    have hdescr := @lineFold_descr net (totalWords lines) lines initState hex
    rw [hlf] at hdescr
    have hst1 : st1 =
        { written := foundRecords net (allTokens lines),
          notFound := notFoundOf net (allTokens lines),
          progress := (List.range' 1 (allTokens lines).length).map
            (fun n => ((n : Nat) : Rat) / ((totalWords lines : Nat) : Rat)),
          labels := allTokens lines,
          checked := (allTokens lines).length } := by
      have := hdescr
      simp only [initState, List.nil_append, Nat.zero_add] at this
      injection this
    subst hst1
    cases hnf : (notFoundOf net (allTokens lines)).isEmpty with
    | true =>
      simp only [hnf, if_true] at h
      cases h
      simp [hnf]
    | false =>
      simp only [hnf, Bool.false_eq_true, if_false] at h
      cases h
      simp [hnf]

theorem process_progress {lines : List Str} {net : Str → NetOutcome}
    {st : RunState}
    (h : process_file (some lines) net = .done st ∨
         process_file (some lines) net = .crashed st) :
    st.progress = (List.range' 1 st.checked).map
      (fun n => ((n : Nat) : Rat) / ((totalWords lines : Nat) : Rat)) ∧
    st.checked ≤ (allTokens lines).length := by
  have hinit : initState.progress = (List.range' 1 initState.checked).map
      (fun n => ((n : Nat) : Rat) / ((totalWords lines : Nat) : Rat)) := by
    simp [initState]
  rcases h with h | h
  · simp only [process_file] at h
    cases hlf : lineFold net (totalWords lines) initState lines with
    | error e0 =>
      rw [hlf] at h
      cases h
    | ok st1 =>
      rw [hlf] at h
      obtain ⟨hP, h1, h2⟩ :=
        (@lineFold_progress net (totalWords lines) lines initState hinit).1 st1 hlf
      cases hnf : st1.notFound.isEmpty with
      | true =>
        simp only [hnf, if_true] at h
        cases h
        exact ⟨hP, by simpa [initState] using h2⟩
      | false =>
        simp only [hnf, Bool.false_eq_true, if_false] at h
        cases h
        exact ⟨hP, by simpa [initState] using h2⟩
  · simp only [process_file] at h
    cases hlf : lineFold net (totalWords lines) initState lines with
    | error e0 =>
      rw [hlf] at h
      cases h
      obtain ⟨hP, h1, h2⟩ :=
        (@lineFold_progress net (totalWords lines) lines initState hinit).2 st hlf
      exact ⟨hP, by simpa [initState] using h2⟩
    | ok st1 =>
      rw [hlf] at h
      cases hnf : st1.notFound.isEmpty with
      | true =>
        simp only [hnf, if_true] at h
        cases h
      | false =>
        simp only [hnf, Bool.false_eq_true, if_false] at h
        cases h

theorem mem_notFoundOf {net : Str → NetOutcome} {w : Str} :
    ∀ {ts : List Str}, w ∈ ts → get_definitions net w = .ok none →
      w ∈ notFoundOf net ts := by
  intro ts
  induction ts with
  | nil =>
    intro hw
    simp at hw
  | cons t ts ih =>
    intro hw h
    rcases List.mem_cons.mp hw with rfl | hmem
    · simp [notFoundOf, h]
    · cases hg : get_definitions net t with
      | error e =>
        simpa [notFoundOf, hg] using ih hmem h
      | ok result =>
        cases result with
        | none =>
          simp only [notFoundOf, hg]
          exact List.mem_cons_of_mem _ (ih hmem h)
        | some v =>
          obtain ⟨jw, rd, ds⟩ := v
          simpa [notFoundOf, hg] using ih hmem h

theorem notFoundOf_eq_filter (net : Str → NetOutcome) (ts : List Str) :
    notFoundOf net ts
      = ts.filter (fun w =>
          match get_definitions net w with
          | .ok none => true
          | _ => false) := by
  induction ts with
  | nil => simp [notFoundOf]
  | cons t ts ih =>
    cases hg : get_definitions net t with
    | error e =>
      simp [notFoundOf, hg, List.filter_cons, ih]
    | ok result =>
      cases result with
      | none => simp [notFoundOf, hg, List.filter_cons, ih]
      | some v =>
        obtain ⟨jw, rd, ds⟩ := v
        simp [notFoundOf, hg, List.filter_cons, ih]

theorem get_definitions_non200 {net : Str → NetOutcome} {w : Str}
    {r : ApiResponse} (hr : net w = .response r) (hs : r.status_code ≠ 200) :
    get_definitions net w = .ok none := by
  simp [get_definitions, hr, handleResponse, hs]

theorem get_definitions_of_connError {net : Str → NetOutcome} {w : Str}
    (hr : net w = .connError) : get_definitions net w = .error () := by
  simp [get_definitions, hr]

theorem handleResponse_error_iff (r : ApiResponse) (hs : r.status_code = 200) :
    (handleResponse r = .error ()) ↔ totalShape r = false := by
  obtain ⟨sc, df⟩ := r
  simp only at hs
  subst hs
  cases df with
  | none => simp [handleResponse, totalShape]
  | some ds =>
    cases ds with
    | nil => simp [handleResponse, totalShape]
    | cons e es =>
      obtain ⟨jap, sen⟩ := e
      cases jap with
      | none => simp [handleResponse, totalShape]
      | some js =>
        cases js with
        | nil => simp [handleResponse, totalShape]
        | cons j0 jrest =>
          cases sen with
          | none => simp [handleResponse, totalShape]
          | some ss =>
            obtain ⟨jword, jread⟩ := j0
            simp only [handleResponse, totalShape]
            rw [if_neg (by norm_num : ¬((200 : Nat) ≠ 200))]
            by_cases hany :
                (ss.take 3).any (fun s => s.english_definitions.isNone) = true
            · rw [if_pos hany]
              have hall : (ss.take 3).all
                  (fun s => !s.english_definitions.isNone) = false := by
                rw [List.all_eq_false]
                rw [List.any_eq_true] at hany
                obtain ⟨x, hx, hpx⟩ := hany
                exact ⟨x, hx, by simp [hpx]⟩
              simp [hall]
              rw [List.any_eq_true] at hany
              obtain ⟨x, hx, hpx⟩ := hany
              exact ⟨x, hx, Option.isNone_iff_eq_none.mp hpx⟩
            · rw [if_neg hany]
              rw [Bool.not_eq_true] at hany
              have hall : (ss.take 3).all
                  (fun s => !s.english_definitions.isNone) = true := by
                rw [List.all_eq_true]
                intro x hx
                have hx2 := List.any_eq_false.mp hany x hx
                simp at hx2
                simp [Option.isSome_iff_ne_none, hx2]
              constructor
              · intro hcon
                exfalso
                revert hcon
                split
                · intro hcon
                  cases hcon
                · intro hcon
                  cases hcon
              · intro hcon
                rw [hall] at hcon
                simp at hcon

theorem handleResponse_ok_some {r : ApiResponse} {jw rd : Str} {ds : List Str}
    (h : handleResponse r = .ok (some (jw, rd, ds))) :
    r.status_code = 200 ∧
    ∃ e es, r.dataField = some (e :: es) ∧
    ∃ j0 js, e.japanese = some (j0 :: js) ∧
    ∃ ss, e.senses = some ss ∧
      j0.reading = some rd ∧
      jw = (match j0.word with
            | some w => w
            | none => rd) ∧
      ds = ((((ss.take 3).map
          (fun s => s.english_definitions.getD [])).flatten).take 3) ∧
      jw ≠ [] ∧ rd ≠ [] ∧ ds ≠ [] := by
  obtain ⟨sc, df⟩ := r
  by_cases hs : sc = 200
  · subst hs
    cases df with
    | none => simp [handleResponse] at h
    | some ds2 =>
      cases ds2 with
      | nil => simp [handleResponse] at h
      | cons e es =>
        obtain ⟨jap, sen⟩ := e
        cases jap with
        | none => simp [handleResponse] at h
        | some js =>
          cases js with
          | nil => simp [handleResponse] at h
          | cons j0 jrest =>
            cases sen with
            | none => simp [handleResponse] at h
            | some ss =>
              obtain ⟨jword, jread⟩ := j0
              simp only [handleResponse] at h
              rw [if_neg (by norm_num : ¬((200 : Nat) ≠ 200))] at h
              by_cases hany :
                  (ss.take 3).any (fun s => s.english_definitions.isNone) = true
              · rw [if_pos hany] at h
                cases h
              · rw [if_neg hany] at h
                split at h
                · simp at h
                · next hcond =>
                  simp only [Bool.or_eq_true, not_or] at hcond
                  obtain ⟨⟨hc1, hc2⟩, hc3⟩ := hcond
                  rcases jread with _ | rv
                  · exfalso
                    simp [pyFalsy] at hc1
                  · rcases jword with _ | wv
                    · simp only [Except.ok.injEq, Option.some.injEq,
                        Prod.mk.injEq, Option.getD_some] at h
                      obtain ⟨h1, h2, h3⟩ := h
                      subst h1
                      subst h2
                      subst h3
                      refine ⟨rfl, _, es, rfl, _, jrest, rfl, ss, rfl, rfl,
                        rfl, rfl, ?_, ?_, ?_⟩
                      · intro hnil
                        rw [hnil] at hc1
                        simp [pyFalsy] at hc1
                      · intro hnil
                        rw [hnil] at hc1
                        simp [pyFalsy] at hc1
                      · intro hnil
                        rw [hnil] at hc3
                        simp at hc3
                    · simp only [Except.ok.injEq, Option.some.injEq,
                        Prod.mk.injEq, Option.getD_some] at h
                      obtain ⟨h1, h2, h3⟩ := h
                      subst h1
                      subst h2
                      subst h3
                      refine ⟨rfl, _, es, rfl, _, jrest, rfl, ss, rfl, rfl,
                        rfl, rfl, ?_, ?_, ?_⟩
                      · intro hnil
                        rw [hnil] at hc2
                        simp [pyFalsy] at hc2
                      · intro hnil
                        rw [hnil] at hc1
                        simp [pyFalsy] at hc1
                      · intro hnil
                        rw [hnil] at hc3
                        simp at hc3
  · have hne : sc ≠ 200 := hs
    simp [handleResponse, hne] at h

theorem handleResponse_ok_none_iff (r : ApiResponse)
    (hex : handleResponse r ≠ .error ()) :
    handleResponse r = .ok none ↔
      (r.status_code ≠ 200 ∨ r.dataField = some [] ∨
       ∃ e es, r.dataField = some (e :: es) ∧
         (pyFalsy (entryReading e) = true ∨ pyFalsy (entrySurface e) = true ∨
          entryDefs e = [])) := by
  obtain ⟨sc, df⟩ := r
  by_cases hs : sc = 200
  · subst hs
    cases df with
    | none => exact absurd (by simp [handleResponse]) hex
    | some ds2 =>
      cases ds2 with
      | nil =>
        constructor
        · intro _
          exact Or.inr (Or.inl rfl)
        · intro _
          simp [handleResponse]
      | cons e es =>
        obtain ⟨jap, sen⟩ := e
        cases jap with
        | none => exact absurd (by simp [handleResponse]) hex
        | some js =>
          cases js with
          | nil => exact absurd (by simp [handleResponse]) hex
          | cons j0 jrest =>
            cases sen with
            | none => exact absurd (by simp [handleResponse]) hex
            | some ss =>
              obtain ⟨jword, jread⟩ := j0
              by_cases hany :
                  (ss.take 3).any (fun s => s.english_definitions.isNone) = true
              · exfalso
                apply hex
                simp only [handleResponse]
                rw [if_neg (by norm_num : ¬((200 : Nat) ≠ 200)), if_pos hany]
              · simp only [handleResponse]
                rw [if_neg (by norm_num : ¬((200 : Nat) ≠ 200)), if_neg hany]
                constructor
                · intro h
                  split at h
                  · next hcond =>
                    simp only [Bool.or_eq_true] at hcond
                    refine Or.inr (Or.inr ⟨_, es, rfl, ?_⟩)
                    rcases hcond with (h1 | h2) | h3
                    · exact Or.inl h1
                    · exact Or.inr (Or.inl h2)
                    · refine Or.inr (Or.inr ?_)
                      show entryDefs
                          ⟨some (⟨jword, jread⟩ :: jrest), some ss⟩ = []
                      simp only [entryDefs]
                      exact List.isEmpty_iff.mp h3
                  · simp at h
                · intro hrhs
                  rcases hrhs with hbad | hbad | ⟨e', es', heq, hdisj⟩
                  · exact absurd rfl hbad
                  · simp at hbad
                  · simp only [Option.some.injEq, List.cons.injEq] at heq
                    obtain ⟨he, hes⟩ := heq
                    subst he
                    subst hes
                    simp only [entryReading, entrySurface, entryDefs] at hdisj
                    split
                    · rfl
                    · next hcond =>
                      exfalso
                      simp only [Bool.or_eq_true, not_or] at hcond
                      obtain ⟨⟨hc1, hc2⟩, hc3⟩ := hcond
                      rcases hdisj with h1 | h2 | h3
                      · exact absurd h1 hc1
                      · exact absurd h2 hc2
                      · apply hc3
                        rw [h3]
                        rfl
  · have hne : sc ≠ 200 := hs
    constructor
    · intro _
      exact Or.inl hne
    · intro _
      simp [handleResponse, hne]

/-! ### Claim theorems -/

/-- C1, counterexample to the claim as stated.  For the one-line file
`犬,` the main pass extracts exactly one token, so the claim predicts the
progress callback is invoked with 1/1 after that token; the code invokes
it with 1/2, because the pre-scan total counts the empty piece after the
trailing comma (it does not discard empty tokens the way the main pass
does). -/
theorem C1_counterexample :
    process_file (some ["犬,".data]) net404 =
      .done ⟨["\nDefinition Not Found:\n".data, "犬\n".data],
             ["犬".data], [(1 : Rat) / 2], ["犬".data], 1⟩ ∧
    allTokens ["犬,".data] = ["犬".data] ∧
    totalWords ["犬,".data] = 2 ∧
    ¬((1 : Rat) / 2 = 1 / 1) := by
  refine ⟨?_, by decide, by decide, by norm_num⟩
  simp [process_file, lineFold, tokFold, stepWord, get_definitions, net404,
    handleResponse, totalWords, prescanCount, tokens, splitWords, pyReplace,
    pySplitChar, pyStrip, pyWs, initState]

/-- C1, amended: after N of the tokens have been processed, the progress
callback has been invoked exactly once per token, the N-th time with the
value N / T where T is `total_words` from the pre-scan of line 53 — a
count that splits each stripped line on commas and spaces and keeps empty
pieces — not the main pass's token count.  On a completed run the number
of invocations equals the main pass's token count. -/
theorem C1_amended_thm (lines : List Str) (net : Str → NetOutcome)
    (st : RunState)
    (h : process_file (some lines) net = .done st ∨
         process_file (some lines) net = .crashed st) :
    st.progress = (List.range' 1 st.checked).map
      (fun n => ((n : Nat) : Rat) / ((totalWords lines : Nat) : Rat)) ∧
    (process_file (some lines) net = .done st →
      st.checked = (allTokens lines).length) := by
  refine ⟨(process_progress h).1, ?_⟩
  intro hd
  exact (process_done hd).2.2.2.1

/-- C1, witness: the amended description applied to the run on the file
`犬,` against a network answering 404. -/
theorem C1_witness :
    (⟨["\nDefinition Not Found:\n".data, "犬\n".data], ["犬".data],
      [(1 : Rat) / 2], ["犬".data], 1⟩ : RunState).progress =
      (List.range' 1 (⟨["\nDefinition Not Found:\n".data, "犬\n".data],
          ["犬".data], [(1 : Rat) / 2], ["犬".data], 1⟩ : RunState).checked).map
        (fun n => ((n : Nat) : Rat) / ((totalWords ["犬,".data] : Nat) : Rat)) :=
  (C1_amended_thm ["犬,".data] net404
    ⟨["\nDefinition Not Found:\n".data, "犬\n".data], ["犬".data],
      [(1 : Rat) / 2], ["犬".data], 1⟩
    (Or.inl (by simp [process_file, lineFold, tokFold, stepWord,
      get_definitions, net404, handleResponse, totalWords, prescanCount,
      tokens, splitWords, pyReplace, pySplitChar, pyStrip, pyWs,
      initState]))).1

/-- C2, counterexample to the claim as stated.  With a network whose
request for 犬 raises a connection error, `process_file` on the one-word
file 犬 does not record the word in the not-found list and does not
continue: the exception propagates and the run aborts (crashes) with an
empty not-found list. -/
theorem C2_counterexample :
    process_file (some ["犬".data]) netConn =
      .crashed ⟨[], [], [], ["犬".data], 0⟩ ∧
    (⟨[], [], [], ["犬".data], 0⟩ : RunState).notFound = [] := by
  refine ⟨?_, rfl⟩
  simp [process_file, lineFold, tokFold, stepWord, get_definitions, netConn,
    totalWords, prescanCount, tokens, splitWords, pyReplace, pySplitChar,
    pyStrip, pyWs, initState]

/-- C2, amended: an unsuccessful HTTP status for a word's lookup is not
fatal — the word ends in the not-found list of the completed run — but a
connection-level failure is fatal: no completed run contains a token whose
request raised a connection error (the exception aborts `process_file`). -/
theorem C2_amended_thm (lines : List Str) (net : Str → NetOutcome)
    (st : RunState) (h : process_file (some lines) net = .done st) :
    (∀ w ∈ allTokens lines, ∀ r, net w = .response r →
        r.status_code ≠ 200 → w ∈ st.notFound) ∧
    (∀ w ∈ allTokens lines, net w ≠ .connError) := by
  constructor
  · intro w hw r hr hs
    rw [(process_done h).1]
    exact mem_notFoundOf hw (get_definitions_non200 hr hs)
  · intro w hw hc
    simp only [process_file] at h
    cases hlf : lineFold net (totalWords lines) initState lines with
    | error e0 =>
      rw [hlf] at h
      cases h
    | ok st1 =>
      exact lineFold_ok_no_err lines initState st1 hlf w hw
        (get_definitions_of_connError hc)

/-- C2, witness: on the one-word file 犬 with a 404-answering network the
run completes and 犬 is in the not-found list. -/
theorem C2_witness :
    "犬".data ∈ (⟨["\nDefinition Not Found:\n".data, "犬\n".data],
      ["犬".data], [(1 : Rat)], ["犬".data], 1⟩ : RunState).notFound :=
  (C2_amended_thm ["犬".data] net404
    ⟨["\nDefinition Not Found:\n".data, "犬\n".data], ["犬".data],
      [(1 : Rat)], ["犬".data], 1⟩
    (by simp [process_file, lineFold, tokFold, stepWord, get_definitions,
      net404, handleResponse, totalWords, prescanCount, tokens, splitWords,
      pyReplace, pySplitChar, pyStrip, pyWs, initState])).1
    ("犬".data) (by decide) ⟨404, none⟩ rfl (by decide)

/-- C3: whenever the lookup of a response returns at all (raises no
exception), it returns no result exactly when the status is not 200, or
the `data` list is empty, or the first entry's extracted reading, surface
form (with the fall-back to the reading) or flattened definition list is
empty; and every returned triple has non-empty surface form, reading and
definition list. -/
theorem C3_thm (net : Str → NetOutcome) (word : Str) (r : ApiResponse)
    (hr : net word = .response r)
    (hex : get_definitions net word ≠ .error ()) :
    ((get_definitions net word = .ok none) ↔
      (r.status_code ≠ 200 ∨ r.dataField = some [] ∨
       ∃ e es, r.dataField = some (e :: es) ∧
         (pyFalsy (entryReading e) = true ∨ pyFalsy (entrySurface e) = true ∨
          entryDefs e = []))) ∧
    (∀ jw rd ds, get_definitions net word = .ok (some (jw, rd, ds)) →
      jw ≠ [] ∧ rd ≠ [] ∧ ds ≠ []) := by
  have hg : get_definitions net word = handleResponse r := by
    simp [get_definitions, hr]
  rw [hg] at hex ⊢
  constructor
  · exact handleResponse_ok_none_iff r hex
  · intro jw rd ds h
    obtain ⟨-, e, es, -, j0, js, -, ss, -, -, -, -, h1, h2, h3⟩ :=
      handleResponse_ok_some h
    exact ⟨h1, h2, h3⟩

/-- C3, witness: a 404 response makes the lookup return no result. -/
theorem C3_witness : get_definitions net404 ("犬".data) = .ok none :=
  ((C3_thm net404 ("犬".data) ⟨404, none⟩ rfl (by decide)).1).mpr
    (Or.inl (by decide))

/-- C4: a found word is written as `surface[reading];defs;` when the
surface form differs from the reading and as `reading;defs;` when they
are equal, with the definitions joined by a comma and a space; and the
lookup 犬 ↦ (犬, いぬ, [dog]) produces exactly the output line
`犬[いぬ];dog;`. -/
theorem C4_thm :
    (∀ (net : Str → NetOutcome) (T : Nat) (st : RunState) (w jw rd : Str)
        (ds : List Str),
      get_definitions net w = .ok (some (jw, rd, ds)) →
      ∃ st', stepWord net T st w = .ok st' ∧
        st'.written = st.written ++
          [if jw = rd then
             rd ++ (";".data) ++ List.intercalate (", ".data) ds
               ++ (";\n".data)
           else
             jw ++ ("[".data) ++ rd ++ ("];".data)
               ++ List.intercalate (", ".data) ds ++ (";\n".data)]) ∧
    process_file (some ["犬".data]) netInu =
      .done ⟨["犬[いぬ];dog;\n".data], [], [(1 : Rat)], ["犬".data], 1⟩ := by
  constructor
  · intro net T st w jw rd ds hg
    refine ⟨{ written := st.written ++ [fmtRecord jw rd ds],
              notFound := st.notFound,
              progress := st.progress
                ++ [((st.checked + 1 : Nat) : Rat) / ((T : Nat) : Rat)],
              labels := st.labels ++ [w],
              checked := st.checked + 1 }, ?_, ?_⟩
    · rw [stepWord_eq, hg]
    · simp [fmtRecord]
  · simp [process_file, lineFold, tokFold, stepWord, get_definitions, netInu,
      rInu, handleResponse, pyFalsy, fmtRecord, totalWords, prescanCount,
      tokens, splitWords, pyReplace, pySplitChar, pyStrip, pyWs, initState]
    decide

/-- C4, witness: the record format applied to the lookup result
(犬, いぬ, [dog]) at the initial state. -/
theorem C4_witness :
    ∃ st', stepWord netInu 1 initState ("犬".data) = .ok st' ∧
      st'.written = initState.written ++
        [if ("犬".data : Str) = "いぬ".data then
           "いぬ".data ++ (";".data)
             ++ List.intercalate (", ".data) ["dog".data] ++ (";\n".data)
         else
           "犬".data ++ ("[".data) ++ "いぬ".data ++ ("];".data)
             ++ List.intercalate (", ".data) ["dog".data] ++ (";\n".data)] :=
  C4_thm.1 netInu 1 initState ("犬".data) ("犬".data) ("いぬ".data)
    ["dog".data] (by decide)

/-- C5: in a completed run the not-found list is exactly the sequence of
tokens whose lookup returned no result, in encounter order; the output
consists of the found records followed — only when that list is non-empty
— by a chunk holding a blank line and the header `Definition Not Found:`
and then one line per not-found word.  Not-found words produce no record
in the main section. -/
theorem C5_thm (lines : List Str) (net : Str → NetOutcome) (st : RunState)
    (h : process_file (some lines) net = .done st) :
    st.notFound = notFoundOf net (allTokens lines) ∧
    notFoundOf net (allTokens lines) = (allTokens lines).filter
      (fun w => match get_definitions net w with
                | .ok none => true
                | _ => false) ∧
    st.written = foundRecords net (allTokens lines) ++
      (if (notFoundOf net (allTokens lines)).isEmpty then []
       else ("\nDefinition Not Found:\n".data) ::
         (notFoundOf net (allTokens lines)).map (fun w => w ++ ("\n".data))) := by
  have hd := process_done h
  exact ⟨hd.1, notFoundOf_eq_filter net (allTokens lines), hd.2.1⟩

/-- C5, witness: the completed 404 run on the one-word file 犬. -/
theorem C5_witness :
    (⟨["\nDefinition Not Found:\n".data, "犬\n".data], ["犬".data],
      [(1 : Rat)], ["犬".data], 1⟩ : RunState).notFound
      = notFoundOf net404 (allTokens ["犬".data]) :=
  (C5_thm ["犬".data] net404
    ⟨["\nDefinition Not Found:\n".data, "犬\n".data], ["犬".data],
      [(1 : Rat)], ["犬".data], 1⟩
    (by simp [process_file, lineFold, tokFold, stepWord, get_definitions,
      net404, handleResponse, totalWords, prescanCount, tokens, splitWords,
      pyReplace, pySplitChar, pyStrip, pyWs, initState])).1

/-- C6: a successful lookup comes from a 200 response with a non-empty
`data` list; it uses the first entry, whose first `japanese` element
provides the reading, and the surface form falls back to the reading when
the `word` key is absent; the definitions are the `english_definitions`
of the first three senses, flattened and truncated to three. -/
theorem C6_thm (net : Str → NetOutcome) (word jw rd : Str) (ds : List Str)
    (h : get_definitions net word = .ok (some (jw, rd, ds))) :
    ∃ r, net word = .response r ∧ r.status_code = 200 ∧
    ∃ e es, r.dataField = some (e :: es) ∧
    ∃ j0 js, e.japanese = some (j0 :: js) ∧
    ∃ ss, e.senses = some ss ∧
      j0.reading = some rd ∧
      jw = (match j0.word with
            | some w => w
            | none => rd) ∧
      ds = ((((ss.take 3).map
          (fun s => s.english_definitions.getD [])).flatten).take 3) := by
  cases hr : net word with
  | connError =>
    rw [get_definitions, hr] at h
    cases h
  | response r =>
    have hh : handleResponse r = .ok (some (jw, rd, ds)) := by
      rw [← h]
      simp [get_definitions, hr]
    obtain ⟨hs, e, es, hdf, j0, js, hjap, ss, hsen, hrd, hjw, hds, -, -, -⟩ :=
      handleResponse_ok_some hh
    exact ⟨r, rfl, hs, e, es, hdf, j0, js, hjap, ss, hsen, hrd, hjw, hds⟩

/-- C6, witness: the lookup 犬 against the `rInu` response. -/
theorem C6_witness :
    ∃ r, netInu ("犬".data) = .response r ∧ r.status_code = 200 ∧
    ∃ e es, r.dataField = some (e :: es) ∧
    ∃ j0 js, e.japanese = some (j0 :: js) ∧
    ∃ ss, e.senses = some ss ∧
      j0.reading = some ("いぬ".data) ∧
      "犬".data = (match j0.word with
            | some w => w
            | none => "いぬ".data) ∧
      ["dog".data] = ((((ss.take 3).map
          (fun s => s.english_definitions.getD [])).flatten).take 3) :=
  C6_thm netInu ("犬".data) ("犬".data) ("いぬ".data) ["dog".data] (by decide)

/-- C7: the words a completed run processes (the words sent to the
checking-label callback, in order) are exactly the tokens obtained by
splitting each line on commas, Japanese commas and spaces, trimming, and
discarding empty pieces; and the line `犬、猫 鳥` yields exactly the
tokens 犬, 猫, 鳥 in that order. -/
theorem C7_thm :
    (∀ (lines : List Str) (net : Str → NetOutcome) (st : RunState),
      process_file (some lines) net = .done st → st.labels = allTokens lines) ∧
    tokens ("犬、猫 鳥".data) = ["犬".data, "猫".data, "鳥".data] := by
  refine ⟨?_, by decide⟩
  intro lines net st h
  exact (process_done h).2.2.1

/-- C7, witness: the completed 404 run on the one-word file 犬 labelled
exactly its tokens. -/
theorem C7_witness :
    (⟨["\nDefinition Not Found:\n".data, "犬\n".data], ["犬".data],
      [(1 : Rat)], ["犬".data], 1⟩ : RunState).labels
      = allTokens ["犬".data] :=
  C7_thm.1 ["犬".data] net404
    ⟨["\nDefinition Not Found:\n".data, "犬\n".data], ["犬".data],
      [(1 : Rat)], ["犬".data], 1⟩
    (by simp [process_file, lineFold, tokFold, stepWord, get_definitions,
      net404, handleResponse, totalWords, prescanCount, tokens, splitWords,
      pyReplace, pySplitChar, pyStrip, pyWs, initState])

/-- C8: when the input file cannot be opened, `process_file` fails before
producing any output — the output file is never created (the source opens
the input, for the pre-scan and again in the combined `with`, before it
ever opens the output file for writing). -/
theorem C8_thm (net : Str → NetOutcome) :
    process_file none net = .openFail ∧
    outputFileAfter (process_file none net) = none :=
  ⟨rfl, rfl⟩

/-- C9: every value passed to the progress callback, in completed and in
crashed runs alike, lies in [0, 1]; the pre-scan total is never smaller
than the main pass's token count; and a file whose pre-scan total is zero
triggers no progress call. -/
theorem C9_thm (lines : List Str) (net : Str → NetOutcome) (st : RunState)
    (h : process_file (some lines) net = .done st ∨
         process_file (some lines) net = .crashed st) :
    (∀ q ∈ st.progress, 0 ≤ q ∧ q ≤ 1) ∧
    (allTokens lines).length ≤ totalWords lines ∧
    (totalWords lines = 0 → st.progress = []) := by
  obtain ⟨hP, hle⟩ := process_progress h
  have hlen := allTokens_length_le lines
  refine ⟨?_, hlen, ?_⟩
  · intro q hq
    rw [hP] at hq
    simp only [List.mem_map] at hq
    obtain ⟨n, hn, rfl⟩ := hq
    rw [List.mem_range'] at hn
    obtain ⟨i, hi, rfl⟩ := hn
    constructor
    · positivity
    · apply div_le_one_of_le₀
      · have hb : 1 + 1 * i ≤ totalWords lines := by omega
        exact_mod_cast hb
      · positivity
  · intro h0
    have hnil : lines = [] := totalWords_zero h0
    subst hnil
    rw [hP]
    have hch : st.checked = 0 := by
      simpa [allTokens] using hle
    rw [hch]
    simp

/-- C9, witness: the one progress value of the 404 run on the one-word
file 犬 lies in [0, 1]. -/
theorem C9_witness : 0 ≤ (1 : Rat) ∧ (1 : Rat) ≤ 1 :=
  (C9_thm ["犬".data] net404
    (⟨["\nDefinition Not Found:\n".data, "犬\n".data], ["犬".data],
      [(1 : Rat)], ["犬".data], 1⟩ : RunState)
    (Or.inl (by simp [process_file, lineFold, tokFold, stepWord,
      get_definitions, net404, handleResponse, totalWords, prescanCount,
      tokens, splitWords, pyReplace, pySplitChar, pyStrip, pyWs,
      initState]))).1 1 (by simp)

/-- C10, counterexample to the claim as stated.  `rEx` is a successful
response whose fourth sense lacks the `english_definitions` key, so it
violates the claim's condition that every `senses` entry contain that key
— yet `get_definitions` neither raises nor fails on it: the code slices
`senses[:3]` and never touches the fourth sense. -/
theorem C10_counterexample :
    handleResponse rEx = .ok (some ("犬".data, "いぬ".data,
      ["dog".data, "run".data, "sun".data])) ∧
    claimShapeC10 rEx = false ∧
    rEx.status_code = 200 := by
  refine ⟨by decide, by decide, by decide⟩

/-- C10, amended: a successful-status response raises an unhandled
exception exactly when its shape violates `totalShape`: the `data` key is
missing, or the first entry's `japanese` list is missing or empty, or its
`senses` key is missing, or one of the first three senses lacks the
`english_definitions` key. -/
theorem C10_amended_thm (r : ApiResponse) (hs : r.status_code = 200) :
    (handleResponse r = .error ()) ↔ totalShape r = false :=
  handleResponse_error_iff r hs

/-- C10, witness: a 200 response whose first entry lacks the `senses` key
raises. -/
theorem C10_witness : handleResponse rBad = .error () :=
  (C10_amended_thm rBad rfl).mpr (by decide)
